import Mathlib

/-!
Verification of the WebWallet core against its natural-language specification.

The definitions below are a shallow embedding of the TypeScript sources:
* `src/core/transaction.ts` — UTXO selection, fee fitting, plain-transfer
  building and simulation;
* `src/core/keychain.ts` — address validation;
* the vault module — password-based authenticated encryption of the seed;
* `src/background/index.ts` — challenge-signature search, pending-request
  approval registries, and the unlock rate limiter.

External cryptographic primitives (base58check codec, secp256k1 recovery,
AES-GCM, PBKDF2) live in vendored or third-party libraries outside the
embedded core; they are modelled as explicit function parameters or as ideal
symbolic primitives, while every piece of repository logic (offsets, loops,
thresholds, comparisons, control flow) is translated faithfully.
-/

namespace WebWallet

/-! ## Transaction engine: data model (src/core/transaction.ts) -/

/-- A UTXO as used by the transaction engine: `{tx_hash, tx_pos, value}`
with `value` in satoshis (non-negative integer). -/
structure UTXO where
  tx_hash : String
  tx_pos : Nat
  value : Nat
deriving DecidableEq, Repr

/-- Typed failure taxonomy of the transaction engine (the TS code throws
`Error` with these distinguished messages). -/
inductive TxError where
  | invalidAmount
  | invalidAddress
  | noUtxos
  | insufficientFunds (haveSat needSat : Nat)
  | insufficientAfterFee (haveSat needSat : Nat)
  | verificationFailed
  | buildFailed
deriving DecidableEq, Repr

/-- `DUST_THRESHOLD = 1000` satoshis (transaction.ts line 12). -/
def DUST_THRESHOLD : Nat := 1000

/-- `MIN_FEE = 10_000` satoshis (transaction.ts line 13). -/
def MIN_FEE : Nat := 10000

/-- `estimateTxSize`: `inputCount * 148 + outputCount * 34 + 10`. -/
def estimateTxSize (inputCount outputCount : Nat) : Nat :=
  inputCount * 148 + outputCount * 34 + 10

/-- `Math.max(Math.round(size * feeRate / 1000), MIN_FEE)`.  For non-negative
integers `Math.round(n / 1000) = (n + 500) / 1000` with floor division. -/
def computeFee (feeRate size : Nat) : Nat :=
  max ((size * feeRate + 500) / 1000) MIN_FEE

/-- Sum of the values of a list of UTXOs. -/
def sumVals (l : List UTXO) : Nat := (l.map UTXO.value).sum

/-- Insert a UTXO into a list sorted descending by value (model of the JS
`sort((a, b) => b.value - a.value)` comparator order). -/
def insertDesc (u : UTXO) : List UTXO → List UTXO
  | [] => [u]
  | v :: rest => if u.value ≥ v.value then u :: v :: rest else v :: insertDesc u rest

/-- Sort a UTXO list descending by value. -/
def sortDesc : List UTXO → List UTXO
  | [] => []
  | u :: rest => insertDesc u (sortDesc rest)

/-- The greedy accumulation loop inside `selectUTXOs`: push each UTXO in
order, add its value to the running total, stop as soon as the total reaches
the target.  Returns the selected UTXOs and the final total. -/
def selectGo : List UTXO → Nat → Nat → List UTXO × Nat
  | [], _, tot => ([], tot)
  | u :: rest, target, tot =>
    let tot' := tot + u.value
    if target ≤ tot' then ([u], tot')
    else
      let r := selectGo rest target tot'
      (u :: r.1, r.2)

/-- `selectUTXOs(utxos, targetSat)` (transaction.ts lines 23–40): sort
largest-first, greedily accumulate until the total covers the target, throw
`Insufficient funds: have .. need ..` when the list is exhausted short. -/
def selectUTXOs (utxos : List UTXO) (targetSat : Nat) : Except TxError (List UTXO × Nat) :=
  let r := selectGo (sortDesc utxos) targetSat 0
  if r.2 < targetSat then .error (.insufficientFunds r.2 targetSat)
  else .ok r

/-! ## Fee-fitting loop (transaction.ts lines 186–196, shared with
`simulateTransaction` lines 107–124)

`feeFitAux fuel fee st` models the `for (let i = 0; i < 5; i++)` body with
`fuel` iterations remaining, current fee `fee` and current selection `st`.
Alongside the final result it returns the trace of successive fee values the
loop adopts (used to state the termination/monotonicity claim). -/

/-- One run of the bounded fee-fitting loop; returns the list of fee values
adopted after the initial `MIN_FEE` plus the loop's outcome. -/
def feeFitAux (utxos : List UTXO) (feeRate amount outputCount : Nat) :
    Nat → Nat → List UTXO × Nat → List Nat × Except TxError (Nat × List UTXO × Nat)
  | 0, fee, st => ([], .ok (fee, st))
  | fuel + 1, fee, st =>
    let newFee := computeFee feeRate (estimateTxSize st.1.length outputCount)
    if newFee ≤ fee then ([], .ok (fee, st))
    else
      match selectUTXOs utxos (amount + newFee) with
      | .error e => ([newFee], .error e)
      | .ok st' =>
        let r := feeFitAux utxos feeRate amount outputCount fuel newFee st'
        (newFee :: r.1, r.2)

/-- The complete fee-fitting phase: initial selection at `amount + MIN_FEE`
followed by at most 5 refit iterations.  The first component is the fee
trace, starting with the initial `MIN_FEE`. -/
def feeFit (utxos : List UTXO) (feeRate amount outputCount : Nat) :
    List Nat × Except TxError (Nat × List UTXO × Nat) :=
  match selectUTXOs utxos (amount + MIN_FEE) with
  | .error e => ([MIN_FEE], .error e)
  | .ok st =>
    let r := feeFitAux utxos feeRate amount outputCount 5 MIN_FEE st
    (MIN_FEE :: r.1, r.2)

/-! ## Basic lemmas about selection -/

theorem sumVals_insertDesc (u : UTXO) (l : List UTXO) :
    sumVals (insertDesc u l) = u.value + sumVals l := by
  induction l with
  | nil => simp [insertDesc, sumVals]
  | cons v rest ih =>
    by_cases h : u.value ≥ v.value
    · simp [insertDesc, h, sumVals]
    · simp [insertDesc, h, sumVals] at ih ⊢
      omega

theorem sumVals_sortDesc (l : List UTXO) : sumVals (sortDesc l) = sumVals l := by
  induction l with
  | nil => rfl
  | cons u rest ih =>
    rw [sortDesc, sumVals_insertDesc, ih]
    simp [sumVals]

/-- The greedy loop invariant: the returned total is the starting total plus
the values of the returned selection; the total never exceeds the start plus
the whole list; and the loop either reached the target or consumed the whole
list. -/
theorem selectGo_spec (l : List UTXO) (target tot : Nat) :
    (selectGo l target tot).2 = tot + sumVals (selectGo l target tot).1 ∧
    (selectGo l target tot).2 ≤ tot + sumVals l ∧
    (target ≤ (selectGo l target tot).2 ∨ (selectGo l target tot).1 = l) := by
  induction l generalizing tot with
  | nil => simp [selectGo, sumVals]
  | cons u rest ih =>
    by_cases h : target ≤ tot + u.value
    · simp [selectGo, h, sumVals]
    · have ih' := ih (tot + u.value)
      simp [selectGo, h, sumVals] at ih' ⊢
      refine ⟨by omega, by omega, ?_⟩
      rcases ih'.2.2 with h1 | h1
      · left; omega
      · right; exact h1

/-- The fee-fitting loop body adopts at most `fuel` further fee values, and
each adopted value strictly exceeds the fee before it. -/
theorem feeFitAux_trace (utxos : List UTXO) (feeRate amount outputCount : Nat) :
    ∀ (fuel fee : Nat) (st : List UTXO × Nat),
      (feeFitAux utxos feeRate amount outputCount fuel fee st).1.length ≤ fuel ∧
      List.Chain (· ≤ ·) fee (feeFitAux utxos feeRate amount outputCount fuel fee st).1 := by
  intro fuel
  induction fuel with
  | zero => intro fee st; simp [feeFitAux]
  | succ n ih =>
    intro fee st
    by_cases h : computeFee feeRate (estimateTxSize st.1.length outputCount) ≤ fee
    · simp [feeFitAux, h]
    · rw [feeFitAux]
      simp only [h, if_false]
      cases hsel : selectUTXOs utxos (amount + computeFee feeRate (estimateTxSize st.1.length outputCount)) with
      | error e => simp [List.Chain]; omega
      | ok st' =>
        have ih' := ih (computeFee feeRate (estimateTxSize st.1.length outputCount)) st'
        simp only [List.length_cons, List.chain_cons]
        exact ⟨by omega, by omega, ih'.2⟩

/-- Claim C2: for every list of UTXOs with non-negative integer values and
every target: if the total available value covers the target, `selectUTXOs`
returns a selection whose total value is at least the target; otherwise it
fails with an insufficient-funds error reporting the have (total available)
and need (target) amounts. -/
theorem selectUTXOs_correct (utxos : List UTXO) (target : Nat) :
    (target ≤ sumVals utxos →
      ∃ sel total, selectUTXOs utxos target = .ok (sel, total) ∧
        target ≤ total ∧ total = sumVals sel) ∧
    (sumVals utxos < target →
      selectUTXOs utxos target = .error (.insufficientFunds (sumVals utxos) target)) := by
  have hspec := selectGo_spec (sortDesc utxos) target 0
  have hsum := sumVals_sortDesc utxos
  set r := selectGo (sortDesc utxos) target 0 with hr
  obtain ⟨h1, h2, h3⟩ := hspec
  constructor
  · intro htot
    have hge : target ≤ r.2 := by
      rcases h3 with h | h
      · exact h
      · rw [h1, h, hsum]; omega
    refine ⟨r.1, r.2, ?_, hge, by omega⟩
    simp only [selectUTXOs, ← hr]
    rw [if_neg (by omega)]
  · intro htot
    have hlt : r.2 < target := by omega
    have hall : r.1 = sortDesc utxos := by
      rcases h3 with h | h
      · omega
      · exact h
    have : r.2 = sumVals utxos := by rw [h1, hall, hsum]; omega
    simp only [selectUTXOs, ← hr]
    rw [if_pos (by omega), this]

/-- Witness for C2 at concrete inputs: a sufficient UTXO set succeeds with
total covering the target, an insufficient one fails with have/need. -/
theorem selectUTXOs_correct_witness :
    (∃ sel total,
        selectUTXOs [⟨"a", 0, 50000000⟩, ⟨"b", 1, 3000000⟩] 10000000 = .ok (sel, total) ∧
        10000000 ≤ total ∧ total = sumVals sel) ∧
    selectUTXOs [⟨"c", 0, 5⟩] 7 = .error (.insufficientFunds 5 7) := by
  constructor
  · exact (selectUTXOs_correct [⟨"a", 0, 50000000⟩, ⟨"b", 1, 3000000⟩] 10000000).1 (by decide)
  · exact (selectUTXOs_correct [⟨"c", 0, 5⟩] 7).2 (by decide)

/-- Claim C3: the fee-fitting loop of `buildTransaction` (two planned
outputs) performs at most 5 re-selection iterations after the initial
selection; the trace of fee values is monotonically non-decreasing and
starts at the configured minimum fee 10000. -/
theorem feeFit_trace_correct (utxos : List UTXO) (feeRate amount : Nat) :
    (feeFit utxos feeRate amount 2).1.length ≤ 1 + 5 ∧
    (feeFit utxos feeRate amount 2).1.head? = some 10000 ∧
    List.Chain' (· ≤ ·) (feeFit utxos feeRate amount 2).1 := by
  unfold feeFit
  cases hsel : selectUTXOs utxos (amount + MIN_FEE) with
  | error e => simp [List.Chain', MIN_FEE]
  | ok st =>
    have h := feeFitAux_trace utxos feeRate amount 2 5 MIN_FEE st
    refine ⟨?_, rfl, ?_⟩
    · simp only [List.length_cons]
      omega
    · exact h.2

/-! ## Keychain: address validation (src/core/keychain.ts)

The base58check codec lives in the vendored `@bitgo/utxo-lib`, outside the
embedded core, so it is a parameter of the embedding: `fromBase58Check`
either returns a decoded `{version, hash}` or throws (modelled as `.error`),
and `toBase58Check` re-encodes a version byte and hash. -/

/-- Result of `utxoLib.address.fromBase58Check`: version byte + payload hash. -/
structure DecodedAddr where
  version : Nat
  hash : List Nat
deriving DecidableEq, Repr

/-- The vendored address codec, as a parameter of the embedding. -/
structure AddrCodec where
  fromBase58Check : String → Except String DecodedAddr
  toBase58Check : Nat → List Nat → String

/-- Network version byte for P2PKH addresses (`VERUS_NETWORK.pubKeyHash`,
from the vendored network parameters). -/
def VERUS_PUBKEYHASH : Nat := 60

/-- Network version byte for P2SH addresses (`VERUS_NETWORK.scriptHash`). -/
def VERUS_SCRIPTHASH : Nat := 85

/-- The regex `/^[\x20-\x7E]+$/.test(address)`: non-empty and every
character is printable ASCII. -/
def printableAscii (s : String) : Bool :=
  !s.isEmpty && s.data.all fun c => 0x20 ≤ c.toNat && c.toNat ≤ 0x7E

/-- `isValidAddress` (keychain.ts lines 51–63): reject non-printable-ASCII,
base58check-decode, accept only the network's P2PKH or P2SH version byte;
the surrounding `try/catch` maps any decoder throw to `false`. -/
def isValidAddress (c : AddrCodec) (address : String) : Bool :=
  if !printableAscii address then false
  else
    match c.fromBase58Check address with
    | .error _ => false
    | .ok d => decide (d.version = VERUS_PUBKEYHASH ∨ d.version = VERUS_SCRIPTHASH)

/-- Instrumented variant of `isValidAddress` counting how many pieces of
regex / base58-check work the function performs on its input (one unit for
the regex test, one for the base58check decode). -/
def isValidAddressSteps (c : AddrCodec) (address : String) : Bool × Nat :=
  if !printableAscii address then (false, 1)
  else
    match c.fromBase58Check address with
    | .error _ => (false, 2)
    | .ok d => (decide (d.version = VERUS_PUBKEYHASH ∨ d.version = VERUS_SCRIPTHASH), 2)

/-! ## Output scripts (vendored `toOutputScript` / `fromOutputScript`) -/

/-- An output script: the standard P2PKH / P2SH templates over a hash, or a
raw (smart-transaction) script. -/
inductive Script where
  | p2pkh (hash : List Nat)
  | p2sh (hash : List Nat)
  | raw (bytes : List Nat)
deriving DecidableEq, Repr

/-- `utxoLib.address.toOutputScript`: decode the base58check address and
wrap its hash in the template selected by the version byte. -/
def toOutputScript (c : AddrCodec) (address : String) : Option Script :=
  match c.fromBase58Check address with
  | .error _ => none
  | .ok d =>
    if d.version = VERUS_PUBKEYHASH then some (.p2pkh d.hash)
    else if d.version = VERUS_SCRIPTHASH then some (.p2sh d.hash)
    else none

/-- `utxoLib.address.fromOutputScript`: recognise the standard templates and
re-encode the embedded hash with the matching network version byte. -/
def fromOutputScript (c : AddrCodec) (s : Script) : Option String :=
  match s with
  | .p2pkh h => some (c.toBase58Check VERUS_PUBKEYHASH h)
  | .p2sh h => some (c.toBase58Check VERUS_SCRIPTHASH h)
  | .raw _ => none

/-! ## Plain-transfer builder and simulator (transaction.ts lines 83–254) -/

/-- A transaction output: script + value. -/
structure TxOut where
  script : Script
  value : Nat
deriving DecidableEq, Repr

/-- A built (signed) transaction, reduced to the parts the claims are about:
the ordered inputs (the selected UTXOs) and the ordered outputs.  The fee a
transaction commits to is implicit: input total minus output total. -/
structure BuiltTx where
  ins : List UTXO
  outs : List TxOut
deriving DecidableEq, Repr

/-- Sum of the values of a list of outputs. -/
def sumOutVals (outs : List TxOut) : Nat := (outs.map TxOut.value).sum

/-- `Number.MAX_SAFE_INTEGER`. -/
def MAX_SAFE_INTEGER : Nat := 9007199254740991

/-- `buildTransaction` up to (but not including) the post-build
verification: validate amount and address, require UTXOs, run the
fee-fitting loop, check `change < 0`, then assemble outputs — recipient
P2PKH at `amountSat`, plus a change output back to the sender when the
change exceeds the dust threshold (otherwise the change is folded into the
fee by not emitting it). -/
def buildTxUnchecked (c : AddrCodec) (addrOfWif : String → String) (wif : String)
    (utxos : List UTXO) (feeRate : Nat) (toAddress : String) (amountSat : Nat) :
    Except TxError BuiltTx :=
  if amountSat = 0 ∨ MAX_SAFE_INTEGER < amountSat then .error .invalidAmount
  else if !isValidAddress c toAddress then .error .invalidAddress
  else if utxos = [] then .error .noUtxos
  else
    match (feeFit utxos feeRate amountSat 2).2 with
    | .error e => .error e
    | .ok (fee, selected, total) =>
      if total < amountSat + fee then .error (.insufficientAfterFee total (amountSat + fee))
      else
        let change := total - amountSat - fee
        match toOutputScript c toAddress with
        | none => .error .buildFailed
        | some recipientScript =>
          if DUST_THRESHOLD < change then
            match toOutputScript c (addrOfWif wif) with
            | none => .error .buildFailed
            | some senderScript =>
              .ok ⟨selected, [⟨recipientScript, amountSat⟩, ⟨senderScript, change⟩]⟩
          else
            .ok ⟨selected, [⟨recipientScript, amountSat⟩]⟩

/-- The post-build verification (transaction.ts lines 237–246): decode
output 0's script back to an address and compare it with the requested
recipient, and compare output 0's value with the requested amount; abort
with a verification-failure error on either mismatch. -/
def postCheckTx (c : AddrCodec) (toAddress : String) (amountSat : Nat) (tx : BuiltTx) :
    Except TxError BuiltTx :=
  match tx.outs with
  | [] => .error .buildFailed
  | out0 :: _ =>
    match fromOutputScript c out0.script with
    | none => .error .buildFailed
    | some decodedAddr =>
      if decodedAddr ≠ toAddress then .error .verificationFailed
      else if out0.value ≠ amountSat then .error .verificationFailed
      else .ok tx

/-- `buildTransaction` (transaction.ts lines 163–254): the unchecked build
followed by the post-build self-check. -/
def buildTransaction (c : AddrCodec) (addrOfWif : String → String) (wif : String)
    (utxos : List UTXO) (feeRate : Nat) (toAddress : String) (amountSat : Nat) :
    Except TxError BuiltTx :=
  match buildTxUnchecked c addrOfWif wif utxos feeRate toAddress amountSat with
  | .error e => .error e
  | .ok tx => postCheckTx c toAddress amountSat tx

/-- The result record of `simulateTransaction` (warnings, which are
formatted floating-point strings, are omitted). -/
structure TransactionSimulation where
  valid : Bool
  amountSat : Nat
  feeSat : Nat
  changeSat : Nat
  inputCount : Nat
  outputCount : Nat
  totalInputSat : Nat
deriving DecidableEq, Repr

/-- `simulateTransaction` (transaction.ts lines 83–158): same validation and
fee-fitting as `buildTransaction`, returning a detailed breakdown instead of
building: effective fee (dust change folded in), change paid out, input and
output counts, and total selected input value. -/
def simulateTransaction (c : AddrCodec) (utxos : List UTXO) (feeRate : Nat)
    (toAddress : String) (amountSat : Nat) : TransactionSimulation :=
  if amountSat = 0 ∨ MAX_SAFE_INTEGER < amountSat then
    ⟨false, amountSat, 0, 0, 0, 0, 0⟩
  else if !isValidAddress c toAddress then
    ⟨false, amountSat, 0, 0, 0, 0, 0⟩
  else if utxos = [] then
    ⟨false, amountSat, 0, 0, 0, 0, 0⟩
  else
    match (feeFit utxos feeRate amountSat 2).2 with
    | .error _ =>
      ⟨false, amountSat, ((feeFit utxos feeRate amountSat 2).1.getLastD MIN_FEE), 0, 0, 0, 0⟩
    | .ok (fee, selected, total) =>
      if total < amountSat + fee then
        ⟨false, amountSat, fee, 0, selected.length, 2, total⟩
      else
        let change := total - amountSat - fee
        if DUST_THRESHOLD < change then
          ⟨true, amountSat, fee, change, selected.length, 2, total⟩
        else
          ⟨true, amountSat, fee + change, 0, selected.length, 1, total⟩

/-! ## Invariants linking fee fitting back to selection -/

theorem selectUTXOs_ok_inv (utxos : List UTXO) (target : Nat) (sel : List UTXO) (tot : Nat)
    (h : selectUTXOs utxos target = .ok (sel, tot)) :
    tot = sumVals sel ∧ target ≤ tot := by
  have hspec := selectGo_spec (sortDesc utxos) target 0
  simp only [selectUTXOs] at h
  split at h
  · exact absurd h (by simp)
  · rename_i hge
    rw [Except.ok.injEq] at h
    have h1 : (selectGo (sortDesc utxos) target 0).1 = sel := by rw [h]
    have h2 : (selectGo (sortDesc utxos) target 0).2 = tot := by rw [h]
    rw [h1, h2] at hspec
    rw [h2] at hge
    exact ⟨by omega, by omega⟩

theorem feeFitAux_ok_inv (utxos : List UTXO) (feeRate amount outputCount : Nat) :
    ∀ (fuel fee : Nat) (st : List UTXO × Nat) (res : Nat × List UTXO × Nat),
      amount + fee ≤ st.2 → st.2 = sumVals st.1 →
      (feeFitAux utxos feeRate amount outputCount fuel fee st).2 = .ok res →
      amount + res.1 ≤ res.2.2 ∧ res.2.2 = sumVals res.2.1 := by
  intro fuel
  induction fuel with
  | zero =>
    intro fee st res h1 h2 h
    simp only [feeFitAux, Except.ok.injEq] at h
    rw [← h]
    exact ⟨h1, h2⟩
  | succ n ih =>
    intro fee st res h1 h2 h
    rw [feeFitAux] at h
    split at h
    · simp only [Except.ok.injEq] at h
      rw [← h]
      exact ⟨h1, h2⟩
    · rename_i hlt
      cases hsel : selectUTXOs utxos
          (amount + computeFee feeRate (estimateTxSize st.1.length outputCount)) with
      | error e => rw [hsel] at h; simp at h
      | ok st' =>
        rw [hsel] at h
        simp only at h
        have hinv := selectUTXOs_ok_inv utxos _ st'.1 st'.2 (by rw [hsel])
        exact ih _ st' res hinv.2 hinv.1 h

theorem feeFit_ok_inv (utxos : List UTXO) (feeRate amount outputCount : Nat)
    (fee : Nat) (sel : List UTXO) (tot : Nat)
    (h : (feeFit utxos feeRate amount outputCount).2 = .ok (fee, sel, tot)) :
    amount + fee ≤ tot ∧ tot = sumVals sel := by
  rw [feeFit] at h
  cases hsel : selectUTXOs utxos (amount + MIN_FEE) with
  | error e => rw [hsel] at h; simp at h
  | ok st =>
    rw [hsel] at h
    simp only at h
    have hinv := selectUTXOs_ok_inv utxos _ st.1 st.2 (by rw [hsel])
    have := feeFitAux_ok_inv utxos feeRate amount outputCount 5 MIN_FEE st
      (fee, sel, tot) hinv.2 hinv.1 h
    exact ⟨this.1, this.2⟩

/-- Claim C1: whenever `buildTransaction` succeeds, the first output of the
returned transaction decodes back to exactly the requested recipient address
and carries exactly the requested amount; and whenever the post-build
re-decode of the built (unchecked) transaction's first output yields a
different address or a different value, `buildTransaction` aborts with the
verification-failure error instead of returning a transaction. -/
theorem buildTransaction_roundtrip (c : AddrCodec) (aow : String → String)
    (wif : String) (utxos : List UTXO) (feeRate : Nat) (toAddress : String) (amountSat : Nat) :
    (∀ tx, buildTransaction c aow wif utxos feeRate toAddress amountSat = .ok tx →
        ∃ out0 rest, tx.outs = out0 :: rest ∧
          fromOutputScript c out0.script = some toAddress ∧ out0.value = amountSat) ∧
    (∀ tx out0 rest,
        buildTxUnchecked c aow wif utxos feeRate toAddress amountSat = .ok tx →
        tx.outs = out0 :: rest →
        (∃ a, fromOutputScript c out0.script = some a ∧
          (a ≠ toAddress ∨ out0.value ≠ amountSat)) →
        buildTransaction c aow wif utxos feeRate toAddress amountSat =
          .error .verificationFailed) := by
  constructor
  · intro tx h
    rw [buildTransaction] at h
    cases hu : buildTxUnchecked c aow wif utxos feeRate toAddress amountSat with
    | error e => rw [hu] at h; simp at h
    | ok tx' =>
      rw [hu] at h
      simp only at h
      rw [postCheckTx] at h
      cases houts : tx'.outs with
      | nil => rw [houts] at h; simp at h
      | cons out0 rest =>
        rw [houts] at h
        simp only at h
        cases hdec : fromOutputScript c out0.script with
        | none => rw [hdec] at h; simp at h
        | some a =>
          rw [hdec] at h
          simp only at h
          split at h
          · simp at h
          · split at h
            · simp at h
            · rename_i hne hv
              simp only [Except.ok.injEq] at h
              refine ⟨out0, rest, ?_, ?_, ?_⟩
              · rw [← h]
                exact houts
              · rw [hdec]
                simp only [ne_eq, not_not] at hne
                rw [hne]
              · simp only [ne_eq, not_not] at hv
                exact hv
  · intro tx out0 rest hu houts hmis
    obtain ⟨a, hdec, hcase⟩ := hmis
    rw [buildTransaction, hu]
    simp only
    rw [postCheckTx, houts]
    simp only
    rw [hdec]
    simp only
    by_cases hne : a = toAddress
    · rcases hcase with hcase | hcase
      · exact absurd hne hcase
      · rw [if_neg (by simp [hne]), if_pos hcase]
    · rw [if_pos hne]

/-- A concrete well-behaved codec instance (round-trips the two test
addresses), used to evaluate the embedding at concrete inputs. -/
def testCodecGood : AddrCodec where
  fromBase58Check s :=
    if s = "RRecipient" then .ok ⟨60, [1]⟩
    else if s = "RSender" then .ok ⟨60, [2]⟩
    else .error "bad address"
  toBase58Check v h :=
    if v = 60 ∧ h = [1] then "RRecipient"
    else if v = 60 ∧ h = [2] then "RSender"
    else "unknown"

/-- A concrete defective codec instance whose re-encode disagrees with its
decode, exercising the defensive post-build check. -/
def testCodecBuggy : AddrCodec where
  fromBase58Check s :=
    if s = "RRecipient" then .ok ⟨60, [1]⟩
    else if s = "RSender" then .ok ⟨60, [2]⟩
    else .error "bad address"
  toBase58Check _ _ := "RWrong"

/-- Concrete stand-in for `keyPair.getAddress()` on the sender's WIF. -/
def testAddrOfWif : String → String := fun _ => "RSender"

/-- Witness for C1: a concrete successful build whose first output
round-trips to the requested recipient and amount, and a concrete defective
codec under which the post-build re-decode mismatch aborts the build with
the verification-failure error. -/
theorem buildTransaction_roundtrip_witness :
    (∃ out0 rest,
        (BuiltTx.mk [⟨"t", 0, 100000000⟩]
          [⟨.p2pkh [1], 1000000⟩, ⟨.p2pkh [2], 98990000⟩]).outs = out0 :: rest ∧
        fromOutputScript testCodecGood out0.script = some "RRecipient" ∧
        out0.value = 1000000) ∧
    buildTransaction testCodecBuggy testAddrOfWif "w" [⟨"t", 0, 100000000⟩] 0
      "RRecipient" 1000000 = .error .verificationFailed := by
  constructor
  · exact (buildTransaction_roundtrip testCodecGood testAddrOfWif "w"
      [⟨"t", 0, 100000000⟩] 0 "RRecipient" 1000000).1
      ⟨[⟨"t", 0, 100000000⟩], [⟨.p2pkh [1], 1000000⟩, ⟨.p2pkh [2], 98990000⟩]⟩
      (by rfl)
  · exact (buildTransaction_roundtrip testCodecBuggy testAddrOfWif "w"
      [⟨"t", 0, 100000000⟩] 0 "RRecipient" 1000000).2
      ⟨[⟨"t", 0, 100000000⟩], [⟨.p2pkh [1], 1000000⟩, ⟨.p2pkh [2], 98990000⟩]⟩
      ⟨.p2pkh [1], 1000000⟩ [⟨.p2pkh [2], 98990000⟩]
      (by rfl) (by rfl) ⟨"RWrong", by rfl, Or.inl (by decide)⟩

/-- The post-build check never alters the transaction it verifies. -/
theorem postCheckTx_ok (c : AddrCodec) (toAddress : String) (amountSat : Nat)
    (tx tx' : BuiltTx) (h : postCheckTx c toAddress amountSat tx = .ok tx') : tx = tx' := by
  rw [postCheckTx] at h
  cases houts : tx.outs with
  | nil => rw [houts] at h; simp at h
  | cons out0 rest =>
    rw [houts] at h
    simp only at h
    cases hdec : fromOutputScript c out0.script with
    | none => rw [hdec] at h; simp at h
    | some a =>
      rw [hdec] at h
      simp only at h
      split at h
      · simp at h
      · split at h
        · simp at h
        · simpa using h

/-- A successful `buildTransaction` returns exactly the transaction the
unchecked builder produced. -/
theorem buildTransaction_ok_unchecked (c : AddrCodec) (aow : String → String)
    (wif : String) (utxos : List UTXO) (feeRate : Nat) (toAddress : String)
    (amountSat : Nat) (tx : BuiltTx)
    (h : buildTransaction c aow wif utxos feeRate toAddress amountSat = .ok tx) :
    buildTxUnchecked c aow wif utxos feeRate toAddress amountSat = .ok tx := by
  rw [buildTransaction] at h
  cases hu : buildTxUnchecked c aow wif utxos feeRate toAddress amountSat with
  | error e => rw [hu] at h; simp at h
  | ok tx' =>
    rw [hu] at h
    simp only at h
    have he := postCheckTx_ok c toAddress amountSat tx' tx h
    subst he
    rfl

/-- Claim C4 (amended statement is the claim itself): on every successful
plain-transfer build with fitted fee `fee`, selection `selected` and selected
input total `total`, if the change `total - amountSat - fee` is at most the
dust threshold (1000) the transaction has exactly one output and the
residual change is folded into the effective fee (inputs minus outputs
equals `fee + change`); otherwise it has exactly two outputs, the second
paying the change back to the sender's own address. -/
theorem buildTransaction_change (c : AddrCodec) (aow : String → String) (wif : String)
    (utxos : List UTXO) (feeRate : Nat) (toAddress : String) (amountSat : Nat)
    (fee : Nat) (selected : List UTXO) (total : Nat) (tx : BuiltTx)
    (hfit : (feeFit utxos feeRate amountSat 2).2 = .ok (fee, selected, total))
    (hok : buildTransaction c aow wif utxos feeRate toAddress amountSat = .ok tx) :
    amountSat + fee ≤ total ∧
    tx.ins = selected ∧
    (total - amountSat - fee ≤ DUST_THRESHOLD →
      tx.outs.length = 1 ∧
      sumVals tx.ins - sumOutVals tx.outs = fee + (total - amountSat - fee)) ∧
    (DUST_THRESHOLD < total - amountSat - fee →
      tx.outs.length = 2 ∧
      ∃ senderScript, toOutputScript c (aow wif) = some senderScript ∧
        tx.outs.getLast? = some ⟨senderScript, total - amountSat - fee⟩) := by
  have hu := buildTransaction_ok_unchecked c aow wif utxos feeRate toAddress amountSat tx hok
  have hinv := feeFit_ok_inv utxos feeRate amountSat 2 fee selected total hfit
  rw [buildTxUnchecked] at hu
  split at hu
  · simp at hu
  · split at hu
    · simp at hu
    · split at hu
      · simp at hu
      · rw [hfit] at hu
        simp only at hu
        split at hu
        · simp at hu
        · rename_i hfee
          cases hro : toOutputScript c toAddress with
          | none => rw [hro] at hu; simp at hu
          | some recipientScript =>
            rw [hro] at hu
            simp only at hu
            split at hu
            · rename_i hdust
              cases hso : toOutputScript c (aow wif) with
              | none => rw [hso] at hu; simp at hu
              | some senderScript =>
                rw [hso] at hu
                simp only [Except.ok.injEq] at hu
                rw [← hu]
                refine ⟨by omega, rfl, ?_, ?_⟩
                · intro hd; omega
                · intro _
                  exact ⟨rfl, senderScript, rfl, rfl⟩
            · rename_i hdust
              simp only [Except.ok.injEq] at hu
              rw [← hu]
              refine ⟨by omega, rfl, ?_, ?_⟩
              · intro _
                refine ⟨rfl, ?_⟩
                simp only [sumOutVals, List.map_cons, List.map_nil, List.sum_cons,
                  List.sum_nil]
                omega
              · intro hd; omega

/-- Witness for C4 at concrete inputs: a build with large change produces
two outputs with the change paid to the sender, and a build whose change is
within dust produces a single output with the change folded into the fee. -/
theorem buildTransaction_change_witness :
    (∃ tx, buildTransaction testCodecGood testAddrOfWif "w" [⟨"t", 0, 100000000⟩] 0
        "RRecipient" 1000000 = .ok tx ∧
      tx.outs.length = 2 ∧
      tx.outs.getLast? = some ⟨.p2pkh [2], 98990000⟩) ∧
    (∃ tx, buildTransaction testCodecGood testAddrOfWif "w" [⟨"t", 0, 1010500⟩] 0
        "RRecipient" 1000000 = .ok tx ∧
      tx.outs.length = 1 ∧
      sumVals tx.ins - sumOutVals tx.outs = 10000 + 500) := by
  constructor
  · refine ⟨⟨[⟨"t", 0, 100000000⟩], [⟨.p2pkh [1], 1000000⟩, ⟨.p2pkh [2], 98990000⟩]⟩,
      by rfl, ?_⟩
    have h := buildTransaction_change testCodecGood testAddrOfWif "w"
      [⟨"t", 0, 100000000⟩] 0 "RRecipient" 1000000 10000 [⟨"t", 0, 100000000⟩]
      100000000 ⟨[⟨"t", 0, 100000000⟩], [⟨.p2pkh [1], 1000000⟩, ⟨.p2pkh [2], 98990000⟩]⟩
      (by rfl) (by rfl)
    have h2 := h.2.2.2 (by decide)
    obtain ⟨hlen, s, hs, hlast⟩ := h2
    refine ⟨hlen, ?_⟩
    have hse : s = Script.p2pkh [2] := by
      have : some s = some (Script.p2pkh [2]) := by rw [← hs]; rfl
      simpa using this
    rw [hlast, hse]
  · refine ⟨⟨[⟨"t", 0, 1010500⟩], [⟨.p2pkh [1], 1000000⟩]⟩, by rfl, ?_⟩
    have h := buildTransaction_change testCodecGood testAddrOfWif "w"
      [⟨"t", 0, 1010500⟩] 0 "RRecipient" 1000000 10000 [⟨"t", 0, 1010500⟩]
      1010500 ⟨[⟨"t", 0, 1010500⟩], [⟨.p2pkh [1], 1000000⟩]⟩
      (by rfl) (by rfl)
    have h2 := h.2.2.1 (by decide)
    exact h2

/-- Claim C10: for the same UTXO set, fee rate, recipient and amount, the
simulation reports exactly what a successful build commits: validity, the
effective fee (inputs minus outputs), the input count, the output count and
the change value — the simulation is a faithful prediction of the builder. -/
theorem simulateTransaction_refines_build (c : AddrCodec) (aow : String → String)
    (wif : String) (utxos : List UTXO) (feeRate : Nat) (toAddress : String)
    (amountSat : Nat) (tx : BuiltTx)
    (hok : buildTransaction c aow wif utxos feeRate toAddress amountSat = .ok tx) :
    (simulateTransaction c utxos feeRate toAddress amountSat).valid = true ∧
    (simulateTransaction c utxos feeRate toAddress amountSat).feeSat
      = sumVals tx.ins - sumOutVals tx.outs ∧
    (simulateTransaction c utxos feeRate toAddress amountSat).inputCount = tx.ins.length ∧
    (simulateTransaction c utxos feeRate toAddress amountSat).outputCount = tx.outs.length ∧
    (simulateTransaction c utxos feeRate toAddress amountSat).changeSat
      = sumOutVals (tx.outs.drop 1) ∧
    (simulateTransaction c utxos feeRate toAddress amountSat).totalInputSat
      = sumVals tx.ins := by
  have hu := buildTransaction_ok_unchecked c aow wif utxos feeRate toAddress amountSat tx hok
  rw [buildTxUnchecked] at hu
  rw [simulateTransaction]
  split at hu
  · simp at hu
  · split at hu
    · simp at hu
    · split at hu
      · simp at hu
      · rename_i h1 h2 h3
        rw [if_neg h1, if_neg h2, if_neg h3]
        cases hfit : (feeFit utxos feeRate amountSat 2).2 with
        | error e => rw [hfit] at hu; simp at hu
        | ok r =>
          obtain ⟨fee, selected, total⟩ := r
          have hinv := feeFit_ok_inv utxos feeRate amountSat 2 fee selected total hfit
          rw [hfit] at hu
          simp only at hu ⊢
          split at hu
          · simp at hu
          · rename_i hfee
            rw [if_neg hfee]
            cases hro : toOutputScript c toAddress with
            | none => rw [hro] at hu; simp at hu
            | some recipientScript =>
              rw [hro] at hu
              simp only at hu
              split at hu
              · rename_i hdust
                cases hso : toOutputScript c (aow wif) with
                | none => rw [hso] at hu; simp at hu
                | some senderScript =>
                  rw [hso] at hu
                  simp only [Except.ok.injEq] at hu
                  rw [if_pos hdust, ← hu]
                  have htot : total = sumVals selected := hinv.2
                  refine ⟨rfl, ?_, rfl, rfl, ?_, ?_⟩
                  · show fee = sumVals selected - sumOutVals
                      [⟨recipientScript, amountSat⟩,
                       ⟨senderScript, total - amountSat - fee⟩]
                    have hout : sumOutVals
                        [⟨recipientScript, amountSat⟩,
                         ⟨senderScript, total - amountSat - fee⟩]
                        = amountSat + (total - amountSat - fee) := by
                      simp [sumOutVals]
                    rw [hout, ← htot]
                    omega
                  · show total - amountSat - fee = sumOutVals (List.drop 1
                      [⟨recipientScript, amountSat⟩,
                       ⟨senderScript, total - amountSat - fee⟩])
                    simp [sumOutVals]
                  · exact htot
              · rename_i hdust
                simp only [Except.ok.injEq] at hu
                rw [if_neg hdust, ← hu]
                have htot : total = sumVals selected := hinv.2
                refine ⟨rfl, ?_, rfl, rfl, ?_, ?_⟩
                · show fee + (total - amountSat - fee)
                    = sumVals selected - sumOutVals [⟨recipientScript, amountSat⟩]
                  have hout : sumOutVals [⟨recipientScript, amountSat⟩] = amountSat := by
                    simp [sumOutVals]
                  rw [hout, ← htot]
                  omega
                · show (0 : Nat) = sumOutVals (List.drop 1 [⟨recipientScript, amountSat⟩])
                  simp [sumOutVals]
                · exact htot

/-- Witness for C10: at a concrete input on which the build succeeds, the
simulation's fee, input count, change and output count match the built
transaction exactly. -/
theorem simulateTransaction_refines_build_witness :
    (simulateTransaction testCodecGood [⟨"t", 0, 100000000⟩] 0 "RRecipient"
      1000000).valid = true ∧
    (simulateTransaction testCodecGood [⟨"t", 0, 100000000⟩] 0 "RRecipient"
      1000000).feeSat =
      sumVals (BuiltTx.mk [⟨"t", 0, 100000000⟩]
        [⟨.p2pkh [1], 1000000⟩, ⟨.p2pkh [2], 98990000⟩]).ins -
      sumOutVals (BuiltTx.mk [⟨"t", 0, 100000000⟩]
        [⟨.p2pkh [1], 1000000⟩, ⟨.p2pkh [2], 98990000⟩]).outs := by
  have h := simulateTransaction_refines_build testCodecGood testAddrOfWif "w"
    [⟨"t", 0, 100000000⟩] 0 "RRecipient" 1000000
    ⟨[⟨"t", 0, 100000000⟩], [⟨.p2pkh [1], 1000000⟩, ⟨.p2pkh [2], 98990000⟩]⟩ (by rfl)
  exact ⟨h.1, h.2.1⟩

/-! ## C9: `isValidAddress` safety

`isValidAddressSteps` counts the units of regex / base58-check work the
function performs on an input, following the source's order: the regex test
always runs first (1 unit), and the base58check decode runs whenever the
regex passes (1 more unit).  The source has no length check anywhere, so
every input — of any length — incurs at least the regex unit. -/

/-- A 101-character candidate address string. -/
def longAddr101 : String := String.mk (List.replicate 101 'R')

/-- Counterexample to C9 as stated: the claim requires every string longer
than 100 characters to be rejected before any regex or base58-check work
(zero work units), but on this concrete 101-character input the function
performs the regex test and the base58check decode (2 work units) — there
is no length pre-check in `isValidAddress`. -/
theorem isValidAddress_no_length_precheck :
    100 < longAddr101.length ∧
    isValidAddressSteps testCodecGood longAddr101 = (false, 2) := by
  constructor
  · decide
  · decide

/-- Claim C9 (amended): `isValidAddress` never throws on any
attacker-controlled address string — a decoder throw (modelled as `.error`)
yields `false`, and a decoded address whose version byte matches neither the
P2PKH nor the P2SH network version yields `false`; the instrumented variant
computes the same result.  (No >100-character pre-rejection exists; the
regex and base58-check work runs on inputs of any length.) -/
theorem isValidAddress_safe (c : AddrCodec) (s : String) :
    (∀ e, c.fromBase58Check s = .error e → isValidAddress c s = false) ∧
    (∀ d, c.fromBase58Check s = .ok d → d.version ≠ VERUS_PUBKEYHASH →
      d.version ≠ VERUS_SCRIPTHASH → isValidAddress c s = false) ∧
    (isValidAddressSteps c s).1 = isValidAddress c s := by
  refine ⟨?_, ?_, ?_⟩
  · intro e h
    rw [isValidAddress]
    split
    · rfl
    · rw [h]
  · intro d h h1 h2
    rw [isValidAddress]
    split
    · rfl
    · rw [h]
      simp [h1, h2]
  · rw [isValidAddress, isValidAddressSteps]
    split
    · rfl
    · cases h : c.fromBase58Check s <;> rfl

/-- A codec decoding every string to an unknown network version byte. -/
def testCodecWrongVersion : AddrCodec where
  fromBase58Check _ := .ok ⟨99, [7]⟩
  toBase58Check _ _ := "unknown"

/-- Witness for the amended C9 at concrete inputs: a decode throw yields
`false`, and a wrong-network-version decode yields `false`. -/
theorem isValidAddress_safe_witness :
    isValidAddress testCodecGood "not@a$valid%address" = false ∧
    isValidAddress testCodecWrongVersion "RRecipient" = false := by
  constructor
  · exact (isValidAddress_safe testCodecGood "not@a$valid%address").1
      "bad address" (by rfl)
  · exact (isValidAddress_safe testCodecWrongVersion "RRecipient").2.1
      ⟨99, [7]⟩ (by rfl) (by decide) (by decide)

/-! ## Vault: password-based authenticated encryption (vault module)

The Web Crypto primitives (PBKDF2 key derivation and AES-GCM) are modelled
as ideal symbolic primitives: a derived key is the triple of its derivation
inputs, and an AES-GCM ciphertext is an opaque blob that decrypts exactly
under the key and nonce it was produced with — any mismatch is an
authentication-tag failure.  Everything else (salt/nonce generation as
explicit inputs, the `salt ‖ iv ‖ ciphertext` concatenation, the fixed
16/12-byte slicing offsets, key re-derivation, the typed incorrect-password
error) is translated from the source. -/

/-- `PBKDF2_ITERATIONS = 900_000`. -/
def PBKDF2_ITERATIONS : Nat := 900000

/-- `SALT_LENGTH = 16`. -/
def SALT_LENGTH : Nat := 16

/-- `IV_LENGTH = 12`. -/
def IV_LENGTH : Nat := 12

/-- An ideal PBKDF2-derived AES key, identified by its derivation inputs
(`deriveKey(password, salt, iterations)`). -/
structure GcmKey where
  password : String
  salt : List Nat
  iterations : Nat
deriving DecidableEq, Repr

/-- An ideal AES-GCM ciphertext: records the key and nonce it was encrypted
under and the plaintext it protects. -/
structure GcmCiphertext where
  key : GcmKey
  iv : List Nat
  plaintext : String
deriving DecidableEq, Repr

/-- A cell of the encoded vault blob: either an ordinary byte (salt and
nonce bytes) or the opaque AES-GCM ciphertext tail. -/
inductive VByte where
  | byte (b : Nat)
  | ct (c : GcmCiphertext)
deriving DecidableEq, Repr

/-- Typed vault failure: a wrong password manifests as an AES-GCM
authentication-tag failure, surfaced as `IncorrectPassword`. -/
inductive VaultError where
  | incorrectPassword
deriving DecidableEq, Repr

/-- `deriveKey(password, salt, iterations = PBKDF2_ITERATIONS)`. -/
def deriveKey (password : String) (salt : List Nat)
    (iterations : Nat := PBKDF2_ITERATIONS) : GcmKey :=
  ⟨password, salt, iterations⟩

/-- `crypto.subtle.encrypt({name: AES-GCM, iv}, key, plaintext)`: the
ciphertext blob (ideal model). -/
def subtleEncrypt (key : GcmKey) (iv : List Nat) (plaintext : String) : List VByte :=
  [VByte.ct ⟨key, iv, plaintext⟩]

/-- `crypto.subtle.decrypt({name: AES-GCM, iv}, key, data)`: succeeds with
the original plaintext exactly when the key and nonce match; any mismatch
(or a malformed blob) is an authentication-tag failure. -/
def subtleDecrypt (key : GcmKey) (iv : List Nat) (data : List VByte) :
    Except VaultError String :=
  match data with
  | [VByte.ct c] =>
    if c.key = key ∧ c.iv = iv then .ok c.plaintext else .error .incorrectPassword
  | _ => .error .incorrectPassword

/-- Project a blob slice back to plain bytes (real byte arrays always
satisfy this; the opaque ciphertext tail does not). -/
def asBytes (l : List VByte) : Option (List Nat) :=
  l.foldr (fun v acc =>
    match v, acc with
    | .byte b, some bs => some (b :: bs)
    | _, _ => none) (some [])

/-- `encryptVault(plaintext, password)` with the random salt and IV as
explicit inputs: derive the key from the password and salt, AES-GCM-encrypt,
and return `salt ‖ iv ‖ ciphertext` (the base64 wrapping `btoa`/`atob` is a
bijection and is modelled as the identity on blobs). -/
def encryptVault (plaintext password : String) (salt iv : List Nat) : List VByte :=
  salt.map VByte.byte ++ iv.map VByte.byte ++
    subtleEncrypt (deriveKey password salt) iv plaintext

/-- `decryptVault(encoded, password, iterations = PBKDF2_ITERATIONS)`: slice
the blob at the fixed offsets (`0..16` salt, `16..28` iv, `28..` ciphertext),
re-derive the key, and AES-GCM-decrypt. -/
def decryptVault (encoded : List VByte) (password : String)
    (iterations : Nat := PBKDF2_ITERATIONS) : Except VaultError String :=
  match asBytes (encoded.take SALT_LENGTH),
      asBytes ((encoded.drop SALT_LENGTH).take IV_LENGTH) with
  | some salt, some iv =>
    subtleDecrypt (deriveKey password salt iterations) iv
      (encoded.drop (SALT_LENGTH + IV_LENGTH))
  | _, _ => .error .incorrectPassword

theorem asBytes_map_byte (l : List Nat) : asBytes (l.map VByte.byte) = some l := by
  induction l with
  | nil => rfl
  | cons b rest ih => simp [asBytes] at ih ⊢; rw [ih]

/-- Claim C5: for every plaintext and password (and every well-formed
random 16-byte salt and 12-byte nonce), decrypting the encrypted vault with
the same password returns exactly the original plaintext, and decrypting it
with any different password fails with the typed incorrect-password
(authentication) error — never corrupted plaintext.  (AES-GCM and PBKDF2
are ideal here: authentication never passes under a mismatched key.) -/
theorem vault_roundtrip (plaintext password : String) (salt iv : List Nat)
    (hsalt : salt.length = SALT_LENGTH) (hiv : iv.length = IV_LENGTH) :
    decryptVault (encryptVault plaintext password salt iv) password PBKDF2_ITERATIONS
      = .ok plaintext ∧
    (∀ password', password' ≠ password →
      decryptVault (encryptVault plaintext password salt iv) password' PBKDF2_ITERATIONS
        = .error .incorrectPassword) := by
  have hsl : (salt.map VByte.byte).length = SALT_LENGTH := by
    rw [List.length_map, hsalt]
  have hil : (iv.map VByte.byte).length = IV_LENGTH := by
    rw [List.length_map, hiv]
  have hblob : encryptVault plaintext password salt iv
      = salt.map VByte.byte ++
        (iv.map VByte.byte ++ subtleEncrypt (deriveKey password salt) iv plaintext) := by
    rw [encryptVault, List.append_assoc]
  have htake : (encryptVault plaintext password salt iv).take SALT_LENGTH
      = salt.map VByte.byte := by
    rw [hblob]
    exact List.take_left' hsl
  have hdrop : (encryptVault plaintext password salt iv).drop SALT_LENGTH
      = iv.map VByte.byte ++ subtleEncrypt (deriveKey password salt) iv plaintext := by
    rw [hblob]
    exact List.drop_left' hsl
  have htake2 : ((encryptVault plaintext password salt iv).drop SALT_LENGTH).take IV_LENGTH
      = iv.map VByte.byte := by
    rw [hdrop]
    exact List.take_left' hil
  have hdrop2 : (encryptVault plaintext password salt iv).drop (SALT_LENGTH + IV_LENGTH)
      = subtleEncrypt (deriveKey password salt) iv plaintext := by
    rw [← List.drop_drop, hdrop]
    exact List.drop_left' hil
  constructor
  · rw [decryptVault, htake, hdrop2, htake2, asBytes_map_byte, asBytes_map_byte]
    simp [subtleEncrypt, subtleDecrypt]
  · intro password' hne
    have hne' : password ≠ password' := fun h => hne h.symm
    rw [decryptVault, htake, hdrop2, htake2, asBytes_map_byte, asBytes_map_byte]
    simp [subtleEncrypt, subtleDecrypt, deriveKey, GcmKey.mk.injEq, hne']

/-- Witness for C5 at concrete inputs: a concrete vault blob round-trips
under the correct password and fails with the typed incorrect-password
error under a different password. -/
theorem vault_roundtrip_witness :
    decryptVault (encryptVault "entropy-and-seed" "hunter2"
        (List.replicate 16 7) (List.replicate 12 9)) "hunter2" PBKDF2_ITERATIONS
      = .ok "entropy-and-seed" ∧
    decryptVault (encryptVault "entropy-and-seed" "hunter2"
        (List.replicate 16 7) (List.replicate 12 9)) "hunter3" PBKDF2_ITERATIONS
      = .error .incorrectPassword := by
  have h := vault_roundtrip "entropy-and-seed" "hunter2"
    (List.replicate 16 7) (List.replicate 12 9) (by decide) (by decide)
  exact ⟨h.1, h.2 "hunter3" (by decide)⟩

/-! ## Identity challenge-signature verification
(src/background/index.ts lines 296–344)

The cryptographic primitives are parameters: `getHash h v` models
`request.getChallengeHash(h, hashVersion)` (`none` = throw), `recover hs`
models compact-signature public-key recovery (with the fixed recovery bit
and compression flag already decoded from the signature) against hash `hs`
(`none` = throw/failure), and `addrOf pk` models hash160 + base58check
P2PKH address derivation.  Heights are integers, as in JS, because
`sigBlockHeight - d` may go negative. -/

/-- The code's height search space: `[h]` then for `d = 1..5` push `h + d`
and, only when `h - d > 0`, also `h - d`. -/
def searchHeights (h : Int) : List Int :=
  [h] ++ (List.range 5).flatMap fun d0 =>
    let d : Int := d0 + 1
    [h + d] ++ (if 0 < h - d then [h - d] else [])

/-- The height search space as the claim words it: `h` and `h ± 1..5`,
skipping only the negative candidates (so height 0 offsets are kept). -/
def claimHeights (h : Int) : List Int :=
  [h] ++ (List.range 5).flatMap fun d0 =>
    let d : Int := d0 + 1
    [h + d] ++ (if 0 ≤ h - d then [h - d] else [])

/-- The hash-version search order: the declared signature version first,
then the other version (`[sigVersion, sigVersion === 2 ? 1 : 2]`). -/
def hashVersions (sigVersion : Nat) : List Nat :=
  [sigVersion, if sigVersion = 2 then 1 else 2]

/-- The bounded multi-hypothesis search at the heart of
`verifyChallengeSignature`: for each hash version and candidate height,
recompute the challenge hash, attempt recovery, derive the candidate's
P2PKH address, and accept on the first candidate whose address is in the
identity's primary-address list; exceptions (`none`) skip the candidate. -/
def verifySearch (getHash : Int → Nat → Option Nat) (recover : Nat → Option Nat)
    (addrOf : Nat → String) (primaryAddresses : List String)
    (sigVersion : Nat) (sigBlockHeight : Int) : Bool :=
  (hashVersions sigVersion).any fun v =>
    (searchHeights sigBlockHeight).any fun h =>
      match getHash h v with
      | none => false
      | some hs =>
        match recover hs with
        | none => false
        | some pk => primaryAddresses.contains (addrOf pk)

/-- The acceptance predicate exactly as the claim words it, over the
claim's height space (negative heights skipped, zero kept). -/
def claimAccept (getHash : Int → Nat → Option Nat) (recover : Nat → Option Nat)
    (addrOf : Nat → String) (primaryAddresses : List String)
    (sigVersion : Nat) (sigBlockHeight : Int) : Bool :=
  (hashVersions sigVersion).any fun v =>
    (claimHeights sigBlockHeight).any fun h =>
      match getHash h v with
      | none => false
      | some hs =>
        match recover hs with
        | none => false
        | some pk => primaryAddresses.contains (addrOf pk)

/-- A concrete primitive instance for the counterexample: the only
recoverable candidate lives at height 0 with hash version 1. -/
def cxGetHash : Int → Nat → Option Nat := fun h v =>
  if h = 0 ∧ v = 1 then some 7 else none

/-- Counterexample to C6 as stated: with signed height 1, the claim's
search space (skip only negative heights) contains height 0 = 1 - 1 and the
claim therefore demands acceptance, but the code skips non-positive offset
candidates (`sigBlockHeight - d > 0`), never tries height 0, and rejects. -/
theorem verifySearch_height_zero_cx :
    claimAccept cxGetHash (fun _ => some 3) (fun _ => "RSigner") ["RSigner"] 1 1 = true ∧
    verifySearch cxGetHash (fun _ => some 3) (fun _ => "RSigner") ["RSigner"] 1 1 = false := by
  constructor
  · decide
  · decide

/-- Claim C6 (amended): `verifyChallengeSignature`'s bounded search accepts
iff some pair of hash version (declared version or the other) and candidate
height (the signed height, or signed height ± 1..5 where offset candidates
with height ≤ 0 are skipped) yields, via compact-signature recovery against
the recomputed challenge hash, a candidate whose derived P2PKH address is in
the identity's primary-address list; in particular a signature from a
non-authorized key is always rejected. -/
theorem verifySearch_iff (getHash : Int → Nat → Option Nat) (recover : Nat → Option Nat)
    (addrOf : Nat → String) (primaryAddresses : List String)
    (sigVersion : Nat) (sigBlockHeight : Int) :
    verifySearch getHash recover addrOf primaryAddresses sigVersion sigBlockHeight = true ↔
    ∃ v ∈ hashVersions sigVersion, ∃ h ∈ searchHeights sigBlockHeight,
      ∃ hs pk, getHash h v = some hs ∧ recover hs = some pk ∧
        addrOf pk ∈ primaryAddresses := by
  rw [verifySearch, List.any_eq_true]
  constructor
  · rintro ⟨v, hv, hinner⟩
    rw [List.any_eq_true] at hinner
    obtain ⟨h, hh, hacc⟩ := hinner
    refine ⟨v, hv, h, hh, ?_⟩
    cases hg : getHash h v with
    | none => rw [hg] at hacc; simp at hacc
    | some hs =>
      rw [hg] at hacc
      simp only at hacc
      cases hr : recover hs with
      | none => rw [hr] at hacc; simp at hacc
      | some pk =>
        rw [hr] at hacc
        simp only at hacc
        exact ⟨hs, pk, rfl, hr, by simpa using hacc⟩
  · rintro ⟨v, hv, h, hh, hs, pk, hg, hr, hmem⟩
    refine ⟨v, hv, ?_⟩
    rw [List.any_eq_true]
    refine ⟨h, hh, ?_⟩
    rw [hg]
    simp only
    rw [hr]
    simp only
    simpa using hmem

/-! ## Pending-request approval registries
(src/background/index.ts: `DAPP_APPROVE` lines 1080–1094, `DAPP_APPROVE_SEND`
lines 1465–1474)

The service worker is single-threaded with run-to-completion semantics: the
lookup / verified-check / delete prefix of each approval handler contains no
`await`, so two interleaved approval calls serialize these prefixes
atomically; all asynchronous work (session read, signing, broadcasting,
webhook POST) happens after the delete and never touches the registries.
The model therefore applies the two synchronous claim prefixes to the
registry in sequence. -/

/-- A pending dApp login request (fields relevant to approval). -/
structure PendingLogin where
  signatureVerified : Option Bool
  uri : String
deriving DecidableEq, Repr

/-- A pending dApp send request (fields relevant to approval). -/
structure PendingSend where
  toAddr : String
  amount : Nat
deriving DecidableEq, Repr

/-- A registry (JS `Map`) keyed by request id. -/
def Registry (α : Type) : Type := String → Option α

/-- `map.delete(id)`. -/
def regDelete {α : Type} (m : Registry α) (id : String) : Registry α :=
  fun k => if k = id then none else m k

/-- Outcome of the synchronous prefix of an approval handler. -/
inductive ApproveOutcome (α : Type) where
  | notFound
  | notVerified
  | claimed (e : α)
deriving DecidableEq

/-- The synchronous prefix of `DAPP_APPROVE`: look up the entry (fail
not-found when absent), fail when the cached signature verification is not
`true`, otherwise delete the entry immediately — before any asynchronous
work — and proceed with it. -/
def approveLogin (m : Registry PendingLogin) (id : String) :
    ApproveOutcome PendingLogin × Registry PendingLogin :=
  match m id with
  | none => (.notFound, m)
  | some pending =>
    if pending.signatureVerified ≠ some true then (.notVerified, m)
    else (.claimed pending, regDelete m id)

/-- The synchronous prefix of `DAPP_APPROVE_SEND`: look up the entry (fail
not-found when absent), otherwise delete it immediately and proceed. -/
def approveSend (m : Registry PendingSend) (id : String) :
    ApproveOutcome PendingSend × Registry PendingSend :=
  match m id with
  | none => (.notFound, m)
  | some pending => (.claimed pending, regDelete m id)

/-- A concrete login registry holding one unverified pending entry. -/
def cxLoginRegistry : Registry PendingLogin :=
  fun k => if k = "req1" then some ⟨some false, "deeplink"⟩ else none

/-- Counterexample to C7 as stated: two interleaved `DAPP_APPROVE` calls for
the same pending id whose challenge signature is not verified both fail with
the not-verified error — neither call observes the entry absent, neither
deletes it, and there are zero successes, contradicting "exactly one
observes the entry present, deletes it and proceeds; the other fails with a
not-found error — never zero". -/
theorem approveLogin_unverified_cx :
    (approveLogin cxLoginRegistry "req1").1 = .notVerified ∧
    (approveLogin (approveLogin cxLoginRegistry "req1").2 "req1").1 = .notVerified ∧
    (approveLogin (approveLogin cxLoginRegistry "req1").2 "req1").2 "req1"
      = some ⟨some false, "deeplink"⟩ := by
  refine ⟨rfl, rfl, rfl⟩

/-- Claim C7 (amended): when the entry is present — and, for the login
registry, its signature verification is cached as `true` — two interleaved
approval calls for the same pending-request id behave race-safely: the
first claims the entry and deletes it from the registry in its synchronous
prefix (before any asynchronous work), and the second observes the entry
absent and fails not-found; exactly one claim, never two, never zero.  An
unverified login entry is claimed by neither call: both fail with the
not-verified error and the entry remains. -/
theorem approve_race_safety (m : Registry PendingLogin) (ms : Registry PendingSend)
    (id ids : String) (e : PendingLogin) (es : PendingSend)
    (hm : m id = some e) (hv : e.signatureVerified = some true)
    (hms : ms ids = some es) :
    approveLogin m id = (.claimed e, regDelete m id) ∧
    approveLogin (regDelete m id) id = (.notFound, regDelete m id) ∧
    approveSend ms ids = (.claimed es, regDelete ms ids) ∧
    approveSend (regDelete ms ids) ids = (.notFound, regDelete ms ids) ∧
    (∀ e', m id = some e' → e'.signatureVerified ≠ some true →
      approveLogin m id = (.notVerified, m) ∧
      approveLogin ((approveLogin m id).2) id = (.notVerified, m)) := by
  refine ⟨?_, ?_, ?_, ?_, ?_⟩
  · rw [approveLogin, hm]
    simp [hv]
  · rw [approveLogin]
    simp [regDelete]
  · rw [approveSend, hms]
  · rw [approveSend]
    simp [regDelete]
  · intro e' he' hv'
    rw [he'] at hm
    have : e' = e := by simpa using hm
    rw [this] at hv'
    exact absurd hv hv'

/-- Witness for C7 at concrete registries: the first approval claims and
deletes, the second fails not-found, on both the login and send registries. -/
theorem approve_race_safety_witness :
    (approveLogin (fun k => if k = "L" then some ⟨some true, "u"⟩ else none) "L").1
      = .claimed ⟨some true, "u"⟩ ∧
    (approveLogin
      (approveLogin (fun k => if k = "L" then some ⟨some true, "u"⟩ else none) "L").2
      "L").1 = .notFound ∧
    (approveSend (fun k => if k = "S" then some ⟨"RRecipient", 5⟩ else none) "S").1
      = .claimed ⟨"RRecipient", 5⟩ ∧
    (approveSend
      (approveSend (fun k => if k = "S" then some ⟨"RRecipient", 5⟩ else none) "S").2
      "S").1 = .notFound := by
  have h := approve_race_safety
    (fun k => if k = "L" then some ⟨some true, "u"⟩ else none)
    (fun k => if k = "S" then some ⟨"RRecipient", 5⟩ else none)
    "L" "S" ⟨some true, "u"⟩ ⟨"RRecipient", 5⟩ (by rfl) (by rfl) (by rfl)
  refine ⟨by rw [h.1], ?_, by rw [h.2.2.1], ?_⟩
  · rw [h.1]
    simp only
    rw [h.2.1]
  · rw [h.2.2.1]
    simp only
    rw [h.2.2.2.1]

/-! ## Unlock brute-force rate limiter
(src/background/index.ts lines 110–141, used by `UNLOCK_WALLET` lines
522–550 and `GET_MNEMONIC` lines 864–886)

The persistent `_unlockAttempts` record is the state; times are epoch
milliseconds.  `unlockStep` models the shared skeleton of both handlers:
rate-limit check first, then vault decrypt — success resets the counter,
failure records a failed attempt. -/

/-- The persisted `_unlockAttempts` record. -/
structure UnlockAttempts where
  count : Nat
  lastFailedAt : Nat
deriving DecidableEq, Repr

/-- `MAX_ATTEMPTS_BEFORE_LOCKOUT = 5`. -/
def MAX_ATTEMPTS_BEFORE_LOCKOUT : Nat := 5

/-- `BASE_LOCKOUT_MS = 5_000`. -/
def BASE_LOCKOUT_MS : Nat := 5000

/-- `MAX_LOCKOUT_MS = 60 * 60_000` (one hour). -/
def MAX_LOCKOUT_MS : Nat := 3600000

/-- `Math.min(BASE_LOCKOUT_MS * 2 ** (count - 5), MAX_LOCKOUT_MS)` — only
evaluated when `count ≥ 5`. -/
def lockoutMsFor (count : Nat) : Nat :=
  min (BASE_LOCKOUT_MS * 2 ^ (count - MAX_ATTEMPTS_BEFORE_LOCKOUT)) MAX_LOCKOUT_MS

/-- `checkUnlockRateLimit`: no record or fewer than 5 failures means no
lockout; otherwise the call is rejected with the lockout message exactly
when the elapsed time since the last failure is below the doubling, capped
lockout duration. -/
def checkUnlockRateLimit (attempts : Option UnlockAttempts) (now : Nat) : Option String :=
  match attempts with
  | none => none
  | some a =>
    if a.count < MAX_ATTEMPTS_BEFORE_LOCKOUT then none
    else
      let lockoutMs := lockoutMsFor a.count
      let elapsed := now - a.lastFailedAt
      if elapsed < lockoutMs then
        some ("Too many failed attempts. Try again in "
          ++ toString ((lockoutMs - elapsed + 999) / 1000) ++ "s")
      else none

/-- `recordFailedUnlock`: increment the persisted counter and stamp the
failure time. -/
def recordFailedUnlock (attempts : Option UnlockAttempts) (now : Nat) :
    Option UnlockAttempts :=
  some ⟨(attempts.map UnlockAttempts.count).getD 0 + 1, now⟩

/-- `resetUnlockAttempts`: remove the persisted record. -/
def resetUnlockAttempts : Option UnlockAttempts := none

/-- Outcome of one unlock / mnemonic-reveal attempt. -/
inductive UnlockOutcome where
  | lockedOut (msg : String)
  | wrongPassword
  | success
deriving DecidableEq, Repr

/-- One attempt of the shared `UNLOCK_WALLET` / `GET_MNEMONIC` skeleton:
check the rate limit first (rejected attempts leave the record untouched);
a successful vault decrypt resets the counter; a failed one records the
failure. -/
def unlockStep (attempts : Option UnlockAttempts) (now : Nat) (passwordCorrect : Bool) :
    UnlockOutcome × Option UnlockAttempts :=
  match checkUnlockRateLimit attempts now with
  | some msg => (.lockedOut msg, attempts)
  | none =>
    if passwordCorrect then (.success, resetUnlockAttempts)
    else (.wrongPassword, recordFailedUnlock attempts now)

/-- Run a sequence of wrong-password attempts at the given times. -/
def failTimes (ts : List Nat) : Option UnlockAttempts :=
  ts.foldl (fun st t => (unlockStep st t false).2) none

/-- Below the 5-failure threshold the rate limiter never rejects. -/
theorem checkUnlockRateLimit_below (a : UnlockAttempts) (now : Nat)
    (h : a.count < MAX_ATTEMPTS_BEFORE_LOCKOUT) :
    checkUnlockRateLimit (some a) now = none := by
  rw [checkUnlockRateLimit]
  simp [h]

/-- Claim C8: after exactly 5 consecutive failed unlock attempts the
persisted counter reads 5; a 6th attempt within 5 seconds of the last
failure is rejected with a lockout message (whatever the password) and
leaves the record untouched; the lockout duration starts at 5 seconds,
doubles with each additional consecutive failure beyond 5 and is capped at
one hour; and any successful unlock or vault decrypt resets the counter, so
no lockout applies afterwards. -/
theorem unlockRateLimit_correct (t1 t2 t3 t4 t5 t6 : Nat) (pw : Bool)
    (hwin : t6 - t5 < 5000) :
    failTimes [t1, t2, t3, t4, t5] = some ⟨5, t5⟩ ∧
    (∃ msg, unlockStep (some ⟨5, t5⟩) t6 pw = (.lockedOut msg, some ⟨5, t5⟩)) ∧
    lockoutMsFor 5 = 5000 ∧
    (∀ c, MAX_ATTEMPTS_BEFORE_LOCKOUT ≤ c →
      lockoutMsFor (c + 1) = min (2 * lockoutMsFor c) MAX_LOCKOUT_MS) ∧
    (∀ c, lockoutMsFor c ≤ MAX_LOCKOUT_MS) ∧
    (∀ st now, checkUnlockRateLimit st now = none →
      unlockStep st now true = (.success, resetUnlockAttempts)) ∧
    (∀ now, checkUnlockRateLimit resetUnlockAttempts now = none) := by
  have hl : lockoutMsFor 5 = 5000 := by decide
  have hc : checkUnlockRateLimit (some ⟨5, t5⟩) t6
      = some ("Too many failed attempts. Try again in "
          ++ toString ((5000 - (t6 - t5) + 999) / 1000) ++ "s") := by
    show (if (5 : Nat) < MAX_ATTEMPTS_BEFORE_LOCKOUT then none
          else if t6 - t5 < lockoutMsFor 5 then
            some ("Too many failed attempts. Try again in "
              ++ toString ((lockoutMsFor 5 - (t6 - t5) + 999) / 1000) ++ "s")
          else none) = _
    rw [if_neg (by decide), hl, if_pos hwin]
  refine ⟨?_, ?_, hl, ?_, ?_, ?_, ?_⟩
  · rfl
  · refine ⟨"Too many failed attempts. Try again in "
      ++ toString ((5000 - (t6 - t5) + 999) / 1000) ++ "s", ?_⟩
    rw [unlockStep, hc]
  · intro c hc5
    rw [lockoutMsFor, lockoutMsFor]
    have hk : c + 1 - MAX_ATTEMPTS_BEFORE_LOCKOUT
        = (c - MAX_ATTEMPTS_BEFORE_LOCKOUT) + 1 := by
      rw [MAX_ATTEMPTS_BEFORE_LOCKOUT] at hc5 ⊢
      omega
    rw [hk, pow_succ]
    rw [BASE_LOCKOUT_MS, MAX_LOCKOUT_MS]
    generalize (2 : Nat) ^ (c - MAX_ATTEMPTS_BEFORE_LOCKOUT) = x
    omega
  · intro c
    rw [lockoutMsFor]
    exact min_le_right _ _
  · intro st now h
    rw [unlockStep, h]
    rfl
  · intro now
    rfl

/-- Witness for C8 at concrete times: five consecutive failures produce the
counter 5, and a 6th attempt 1 second after the 5th failure is rejected with
the lockout message while the record is left in place. -/
theorem unlockRateLimit_correct_witness :
    failTimes [0, 0, 0, 0, 1000] = some ⟨5, 1000⟩ ∧
    (∃ msg, unlockStep (some ⟨5, 1000⟩) 2000 false
      = (.lockedOut msg, some ⟨5, 1000⟩)) := by
  have h := unlockRateLimit_correct 0 0 0 0 1000 2000 false (by decide)
  exact ⟨h.1, h.2.1⟩

end WebWallet
